import Mathlib

/-!
Shallow embedding of the control-mapping orchestration engine
(OllamaService, MappingEngine, ControlService, ReportService) and proofs
of the specified properties.

Modelling conventions: JavaScript numbers are modelled as rationals,
Date values as integer timestamps, JS `Map` as an association list with
insert-or-update-in-place semantics, and thrown exceptions as `Except`.
`JSON.parse` is a host-runtime primitive, so it is taken as a parameter
`jp : String → Option JsValue` of the response parser.
-/

namespace Ism

/-- A JavaScript runtime value as seen by the response parser:
the result of JSON.parse plus `undefined` for absent object fields. -/
inductive JsValue where
  | undefined : JsValue
  | null : JsValue
  | bool : Bool → JsValue
  | num : ℚ → JsValue
  | str : String → JsValue
  | arr : List JsValue → JsValue
  | obj : List (String × JsValue) → JsValue
  deriving Inhabited

/-- JavaScript truthiness of a value. -/
def JsValue.truthy : JsValue → Bool
  | .undefined => false
  | .null => false
  | .bool b => b
  | .num q => decide (q ≠ 0)
  | .str s => !s.isEmpty
  | .arr _ => true
  | .obj _ => true

/-- Property access `v.name`: object field lookup, `undefined` otherwise. -/
def JsValue.getField : JsValue → String → JsValue
  | .obj fields, k =>
    match fields.find? (fun p => p.1 = k) with
    | some p => p.2
    | none => .undefined
  | _, _ => .undefined

/-- `typeof v === 'number'`. -/
def JsValue.isNum : JsValue → Bool
  | .num _ => true
  | _ => false

/-- A parsed correspondence candidate (`ControlMapping` in OllamaService).
`reasoning` is stored as the raw runtime value, as the source does. -/
structure ControlMapping where
  nistControlId : String
  confidence : ℚ
  reasoning : JsValue

/-- The analysis result for one ISM control (`MappingAnalysisResult`). -/
structure MappingAnalysisResult where
  mappings : List ControlMapping
  processingTime : ℚ
  model : String
  timestamp : ℤ

/-- JS `String.prototype.toUpperCase` (character-wise uppercasing). -/
def jsToUpper (s : String) : String :=
  String.mk (s.data.map Char.toUpper)

/-- JS `String.prototype.toLowerCase` (character-wise lowercasing). -/
def jsToLower (s : String) : String :=
  String.mk (s.data.map Char.toLower)

/-- JS `String.prototype.trim`: strip whitespace from both ends. -/
def jsTrim (s : String) : String :=
  String.mk (((s.data.dropWhile Char.isWhitespace).reverse.dropWhile
    Char.isWhitespace).reverse)

/-- `normalizeNistControlId`: `controlId.toUpperCase().trim()`. -/
def normalizeNistControlId (controlId : String) : String :=
  jsTrim (jsToUpper controlId)

/-- `Math.max(0, Math.min(100, c))` applied to the parsed confidence. -/
def clampConfidence (c : ℚ) : ℚ :=
  max 0 (min 100 c)

/-- The body of the element callback inside `parseResponse`:
validates one element of `mappings` and converts it, or throws.
A missing/falsy `nistControlId`, a non-number `confidence`, or a
missing/falsy `reasoning` throws; a truthy non-string `nistControlId`
passes the check but then throws in `toUpperCase`. -/
def convertElement (m : JsValue) : Except Unit ControlMapping :=
  if !(m.getField "nistControlId").truthy
      || !(m.getField "confidence").isNum
      || !(m.getField "reasoning").truthy then
    .error ()
  else
    match m.getField "nistControlId", m.getField "confidence" with
    | .str s, .num q =>
      .ok { nistControlId := normalizeNistControlId s
            confidence := clampConfidence q
            reasoning := m.getField "reasoning" }
    | _, _ => .error ()

/-- `content.match(/\x7b[\s\S]*\x7d/)`: the regex greedily matches from
the first opening brace to the last closing brace after it. -/
def extractBraces (content : String) : Option String :=
  let cs := content.data
  match cs.findIdx? (fun c => c = '\x7b'), (cs.reverse.findIdx? (fun c => c = '\x7d')) with
  | some i, some jr =>
    let j := cs.length - 1 - jr
    if i < j then some (String.mk ((cs.drop i).take (j - i + 1))) else none
  | _, _ => none

/-- The fallback candidate substituted on any parse failure. -/
def fallbackMapping : ControlMapping :=
  { nistControlId := normalizeNistControlId "AC-1"
    confidence := 50
    reasoning := .str "Automated mapping failed - manual review required. Raw response parsing error." }

/-- The `try` part of `OllamaService.parseResponse`: extract a brace
substring, JSON.parse it (`jp`), require a `mappings` array, and
validate/convert every element; any failure throws. -/
def parseResponseCore (jp : String → Option JsValue) (content : String) :
    Except Unit (List ControlMapping) :=
  match extractBraces content with
  | none => .error ()
  | some sub =>
    match jp sub with
    | none => .error ()
    | some parsed =>
      match parsed.getField "mappings" with
      | .arr xs => xs.mapM convertElement
      | _ => .error ()

/-- `OllamaService.parseResponse`: the catch handler replaces any parse
failure by the single fallback candidate; the function is total. -/
def parseResponse (jp : String → Option JsValue) (content : String) :
    List ControlMapping :=
  match parseResponseCore jp content with
  | .ok l => l
  | .error _ => [fallbackMapping]

/-! ### Control catalog (ControlService) -/

/-- An ISM control record (only the fields the engine reads). -/
structure ISMControl where
  id : String
  title : String
  description : String
  deriving DecidableEq

/-- A NIST control record (only the fields the engine reads). -/
structure NISTControl where
  id : String
  title : String
  description : String
  family : String
  deriving DecidableEq

/-- The ControlService singleton state: the two loaded lists plus the
per-source loaded flags that `isReady` consults. -/
structure CatalogState where
  ismControls : List ISMControl
  nistControls : List NISTControl
  ismControlsLoaded : Bool
  nistControlsLoaded : Bool

/-- `ControlService.isReady`. -/
def CatalogState.isReady (cat : CatalogState) : Bool :=
  cat.ismControlsLoaded && cat.nistControlsLoaded

/-- `ControlService.getISMControlById`: first record with exactly this id. -/
def CatalogState.getISMControlById (cat : CatalogState) (id : String) :
    Option ISMControl :=
  cat.ismControls.find? (fun control => control.id = id)

/-! ### JS Map model -/

/-- JS `Map.get`. -/
def mapGet {α : Type} : List (String × α) → String → Option α
  | [], _ => none
  | (k, v) :: rest, key => if k = key then some v else mapGet rest key

/-- JS `Map.set`: update the value in place if the key exists
(keeping insertion order), otherwise append. -/
def mapSet {α : Type} : List (String × α) → String → α → List (String × α)
  | [], key, v => [(key, v)]
  | (k, w) :: rest, key, v =>
    if k = key then (k, v) :: rest else (k, w) :: mapSet rest key v

/-- Mutating the object returned by `Array.find`: apply `f` to the first
element satisfying `p`, leaving everything else in place. -/
def updateFirst {α : Type} (p : α → Bool) (f : α → α) : List α → List α
  | [] => []
  | x :: xs => if p x then f x :: xs else x :: updateFirst p f xs

/-! ### Mapping state (MappingEngine) -/

/-- One correspondence inside a `MappingResult.nistMappings` list. -/
structure NistMappingItem where
  nistControlId : String
  nistTitle : String
  nistDescription : String
  confidence : ℚ
  reasoning : JsValue
  isManualOverride : Bool

/-- A persisted `MappingResult` entry. -/
structure MappingResult where
  ismControlId : String
  nistMappings : List NistMappingItem
  processingTimestamp : ℤ
  aiModel : String
  processingTime : ℚ

/-- A `resultsQueue` element. -/
structure QueueItem where
  jobId : String
  result : MappingResult
  timestamp : ℤ

/-- A `ProcessingJob`; `results` is the per-job result map. -/
structure ProcessingJob where
  id : String
  status : String
  progress : ℤ
  totalControls : ℕ
  processedControls : ℕ
  startTime : ℤ
  endTime : Option ℤ
  error : Option String
  results : List (String × MappingResult)

/-- The MappingEngine singleton state. -/
structure EngineState where
  aiServiceInitialized : Bool
  activeJobs : List (String × ProcessingJob)
  mappingResults : List (String × MappingResult)
  resultsQueue : List QueueItem

/-- `MappingEngine.getNISTControlMetadata`: case-insensitive lookup with
`Unknown` / `Description not available` fallbacks (`||` on the found
record's possibly-empty fields). -/
def getNISTControlMetadata (cat : CatalogState) (nistControlId : String) :
    String × String :=
  match cat.nistControls.find? (fun control =>
      jsToLower control.id = jsToLower nistControlId) with
  | some control =>
    ((if control.title.isEmpty then "Unknown" else control.title),
     (if control.description.isEmpty then "Description not available"
      else control.description))
  | none => ("Unknown", "Description not available")

/-- Building the `MappingResult` from one analysis result inside the
`processControlsAsync` progress callback: each parsed mapping is
enriched with NIST metadata resolved against the current catalog and
flagged as not a manual override. -/
def buildMappingResult (cat : CatalogState) (controlId : String)
    (analysisResult : MappingAnalysisResult) : MappingResult :=
  { ismControlId := controlId
    nistMappings := analysisResult.mappings.map (fun mapping =>
      let meta := getNISTControlMetadata cat mapping.nistControlId
      { nistControlId := mapping.nistControlId
        nistTitle := meta.1
        nistDescription := meta.2
        confidence := mapping.confidence
        reasoning := mapping.reasoning
        isManualOverride := false })
    processingTimestamp := analysisResult.timestamp
    aiModel := analysisResult.model
    processingTime := analysisResult.processingTime }

/-- The write `this.mappingResults.set(controlId, mappingResult)`
performed for each completed analysis. -/
def writeAnalysisResult (cat : CatalogState)
    (mappingResults : List (String × MappingResult)) (controlId : String)
    (analysisResult : MappingAnalysisResult) :
    List (String × MappingResult) :=
  mapSet mappingResults controlId (buildMappingResult cat controlId analysisResult)

/-- The fields written to an existing correspondence by
`applyManualOverride`. -/
def overrideItemUpdate (meta : String × String) (confidence : ℚ)
    (reasoning : String) (item : NistMappingItem) : NistMappingItem :=
  { item with
    confidence := confidence
    reasoning := .str reasoning
    isManualOverride := true
    nistTitle := meta.1
    nistDescription := meta.2 }

/-- The fresh correspondence pushed by `applyManualOverride`. -/
def overrideItemNew (nistControlId : String) (meta : String × String)
    (confidence : ℚ) (reasoning : String) : NistMappingItem :=
  { nistControlId := nistControlId
    nistTitle := meta.1
    nistDescription := meta.2
    confidence := confidence
    reasoning := .str reasoning
    isManualOverride := true }

/-- `MappingEngine.applyManualOverride` acting on the `mappingResults`
map (`now` is the `new Date()` used for a freshly created entry). -/
def applyManualOverride (cat : CatalogState)
    (mappingResults : List (String × MappingResult))
    (ismControlId nistControlId : String) (confidence : ℚ)
    (reasoning : String) (now : ℤ) : List (String × MappingResult) :=
  let meta := getNISTControlMetadata cat nistControlId
  match mapGet mappingResults ismControlId with
  | none =>
    mapSet mappingResults ismControlId
      { ismControlId := ismControlId
        nistMappings := [overrideItemNew nistControlId meta confidence reasoning]
        processingTimestamp := now
        aiModel := "manual-override"
        processingTime := 0 }
  | some existingResult =>
    let newMappings :=
      if existingResult.nistMappings.any (fun m => m.nistControlId = nistControlId) then
        updateFirst (fun m => m.nistControlId = nistControlId)
          (overrideItemUpdate meta confidence reasoning)
          existingResult.nistMappings
      else
        existingResult.nistMappings ++
          [overrideItemNew nistControlId meta confidence reasoning]
    mapSet mappingResults ismControlId { existingResult with nistMappings := newMappings }

/-- The per-correspondence read-time enrichment used by
`getAllMappingResults` / `getMappingResult`: a mapping that already has
a (truthy) title and description is kept verbatim; otherwise the NIST
metadata is resolved against the current catalog. -/
def enrichMapping (cat : CatalogState) (mapping : NistMappingItem) :
    NistMappingItem :=
  if !mapping.nistTitle.isEmpty && !mapping.nistDescription.isEmpty then
    mapping
  else
    let meta := getNISTControlMetadata cat mapping.nistControlId
    { mapping with nistTitle := meta.1, nistDescription := meta.2 }

/-- `MappingEngine.getMappingResult`. -/
def getMappingResult (cat : CatalogState)
    (mappingResults : List (String × MappingResult)) (ismControlId : String) :
    Option MappingResult :=
  match mapGet mappingResults ismControlId with
  | none => none
  | some result =>
    some { result with nistMappings := result.nistMappings.map (enrichMapping cat) }

/-- `MappingEngine.getAllMappingResults`. -/
def getAllMappingResults (cat : CatalogState)
    (mappingResults : List (String × MappingResult)) : List MappingResult :=
  (mappingResults.map Prod.snd).map (fun result =>
    { result with nistMappings := result.nistMappings.map (enrichMapping cat) })

/-! ### Job startup (MappingEngine.startProcessing) -/

/-- The errors `startProcessing` can throw, in source order. -/
inductive StartError where
  | notInitialized
  | notReady
  | noISMControls
  | noNISTControls
  deriving DecidableEq

/-- The job record created by `startProcessing`. -/
def mkJob (jobId : String) (totalControls : ℕ) (startTime : ℤ) : ProcessingJob :=
  { id := jobId
    status := "queued"
    progress := 0
    totalControls := totalControls
    processedControls := 0
    startTime := startTime
    endTime := none
    error := none
    results := [] }

/-- `MappingEngine.startProcessing` up to the point where asynchronous
processing is launched. `jobId` and `startTime` stand for the
`generateJobId()` / `new Date()` host values. Returns the outcome
(job id and selected batch, or the thrown error) together with the
engine state as left by the call. -/
def startProcessing (cat : CatalogState) (st : EngineState)
    (controlIds : Option (List String)) (jobId : String) (startTime : ℤ) :
    Except StartError (String × List ISMControl) × EngineState :=
  if !st.aiServiceInitialized then
    (.error .notInitialized, st)
  else if !cat.isReady then
    (.error .notReady, st)
  else
    let ismControls :=
      match controlIds with
      | some ids => ids.filterMap cat.getISMControlById
      | none => cat.ismControls
    let nistControls := cat.nistControls
    if ismControls.length = 0 then
      (.error .noISMControls, st)
    else if nistControls.length = 0 then
      (.error .noNISTControls, st)
    else
      let newJob := mkJob jobId ismControls.length startTime
      (.ok (jobId, ismControls),
       { st with activeJobs := mapSet st.activeJobs jobId newJob })

/-! ### Queue polling, statistics, reset -/

/-- `MappingEngine.getNewResults`: drain the whole queue, or just one
job's items. Returns the items together with the new engine state. -/
def getNewResults (st : EngineState) (jobId : Option String) :
    List QueueItem × EngineState :=
  match jobId with
  | some j =>
    (st.resultsQueue.filter (fun item => item.jobId = j),
     { st with resultsQueue := st.resultsQueue.filter (fun item => !(item.jobId = j)) })
  | none =>
    (st.resultsQueue, { st with resultsQueue := [] })

/-- `MappingEngine.hasNewResults`. -/
def hasNewResults (st : EngineState) (jobId : Option String) : Bool :=
  match jobId with
  | some j => st.resultsQueue.any (fun item => item.jobId = j)
  | none => decide (0 < st.resultsQueue.length)

/-- `MappingEngine.getProcessingStats`. -/
def getProcessingStats (st : EngineState) :
    ℕ × ℕ × ℕ × ℕ × ℕ :=
  let jobs := st.activeJobs.map Prod.snd
  (jobs.length,
   (jobs.filter (fun j => j.status = "processing" || j.status = "queued")).length,
   (jobs.filter (fun j => j.status = "completed")).length,
   (jobs.filter (fun j => j.status = "failed")).length,
   st.mappingResults.length)

/-- `totalMappings` component of `getProcessingStats`. -/
def totalMappingsStat (st : EngineState) : ℕ :=
  st.mappingResults.length

/-- `MappingEngine.reset`: clears the jobs table and the mapping results;
nothing else is touched. -/
def reset (st : EngineState) : EngineState :=
  { st with activeJobs := [], mappingResults := [] }

/-- `ProcessingMetadata` as computed by `calculateProcessingMetadata`. -/
structure ProcessingMetadata where
  totalISMControls : ℤ
  processedControls : ℤ
  averageConfidence : ℚ
  highConfidenceMappings : ℕ
  unmappedControls : ℤ
  processingStartTime : ℤ
  processingEndTime : Option ℤ
  totalProcessingTime : ℚ

/-- The inner loop of `calculateProcessingMetadata` over one entry's
correspondences. -/
def confStep (a : ℤ × ℤ × ℚ × ℚ × ℕ × ℕ) (mapping : NistMappingItem) :
    ℤ × ℤ × ℚ × ℚ × ℕ × ℕ :=
  (a.1, a.2.1, a.2.2.1, a.2.2.2.1 + mapping.confidence, a.2.2.2.2.1 + 1,
   if (70 : ℚ) ≤ mapping.confidence then a.2.2.2.2.2 + 1 else a.2.2.2.2.2)

/-- The loop body of `calculateProcessingMetadata`: accumulates
(earliestStart, latestEnd, totalProcessingTime, totalConfidence,
mappingCount, highConfidenceCount). -/
def metadataStep (acc : ℤ × ℤ × ℚ × ℚ × ℕ × ℕ) (result : MappingResult) :
    ℤ × ℤ × ℚ × ℚ × ℕ × ℕ :=
  let (earliestStart, latestEnd, totalTime, totalConf, count, highCount) := acc
  let earliestStart :=
    if result.processingTimestamp < earliestStart then result.processingTimestamp
    else earliestStart
  let latestEnd :=
    if latestEnd < result.processingTimestamp then result.processingTimestamp
    else latestEnd
  let totalTime := totalTime + result.processingTime
  result.nistMappings.foldl confStep
    (earliestStart, latestEnd, totalTime, totalConf, count, highCount)

/-- `MappingEngine.calculateProcessingMetadata` (`now` stands for the
`new Date()` used to seed `earliestStart`). -/
def calculateProcessingMetadata (cat : CatalogState) (st : EngineState)
    (now : ℤ) : ProcessingMetadata :=
  let results := st.mappingResults.map Prod.snd
  let totalControls : ℤ := cat.ismControls.length
  let (earliestStart, latestEnd, totalTime, totalConf, count, highCount) :=
    results.foldl metadataStep (now, 0, 0, 0, 0, 0)
  { totalISMControls := totalControls
    processedControls := results.length
    averageConfidence := if 0 < count then totalConf / count else 0
    highConfidenceMappings := highCount
    unmappedControls := totalControls - results.length
    processingStartTime := earliestStart
    processingEndTime := if 0 < latestEnd then some latestEnd else none
    totalProcessingTime := totalTime }

/-! ### Batch processing
(`OllamaService.batchAnalyzeControls` driving the progress callback of
`MappingEngine.processControlsAsync`, with concurrency width 1, so the
run is a sequential fold over per-item outcomes). An item's outcome is
`some r` when `analyzeControlMapping` returned `r` and `none` when it
threw. -/

/-- The engine-side state a running batch mutates. -/
structure BatchState where
  job : ProcessingJob
  mappingResults : List (String × MappingResult)
  resultsQueue : List QueueItem

/-- One settled item: the local `completed` counter advances, the
progress callback updates the job counters, and — only on success —
the mapping stores and the results queue are updated. -/
def batchStep (cat : CatalogState) (total : ℕ) (queueTime : ℤ)
    (acc : ℕ × BatchState) (outcome : ISMControl × Option MappingAnalysisResult) :
    ℕ × BatchState :=
  let completed := acc.1 + 1
  let st := acc.2
  let progress : ℤ := round ((completed : ℚ) / (total : ℚ) * 100)
  let job := { st.job with processedControls := completed, progress := progress }
  match outcome.2 with
  | some analysisResult =>
    let controlId := outcome.1.id
    let mappingResult := buildMappingResult cat controlId analysisResult
    (completed,
     { job := { job with results := mapSet job.results controlId mappingResult }
       mappingResults := mapSet st.mappingResults controlId mappingResult
       resultsQueue := st.resultsQueue ++
         [{ jobId := st.job.id, result := mappingResult, timestamp := queueTime }] })
  | none =>
    (completed, { st with job := job })

/-- A whole batch run: mark the job `processing`, settle every item in
order, then mark the job `completed` with full progress (`endTime`). -/
def runBatch (cat : CatalogState) (st : BatchState)
    (outcomes : List (ISMControl × Option MappingAnalysisResult))
    (queueTime endTime : ℤ) : BatchState :=
  let total := outcomes.length
  let started : BatchState := { st with job := { st.job with status := "processing" } }
  let finished := (outcomes.foldl (batchStep cat total queueTime) (0, started)).2
  { finished with job :=
    { finished.job with status := "completed", endTime := some endTime, progress := 100 } }

/-! ### Operation sequences on the mapping state
(for the per-entry target-uniqueness invariant). -/

/-- One mutation of the `mappingResults` store: a manual override or the
write of one AI analysis result. -/
inductive EngineOp where
  | override (ismControlId nistControlId : String) (confidence : ℚ)
      (reasoning : String) (now : ℤ)
  | analysisWrite (controlId : String) (analysisResult : MappingAnalysisResult)

/-- Apply one operation. -/
def applyOp (cat : CatalogState) (mappingResults : List (String × MappingResult)) :
    EngineOp → List (String × MappingResult)
  | .override ismControlId nistControlId confidence reasoning now =>
    applyManualOverride cat mappingResults ismControlId nistControlId
      confidence reasoning now
  | .analysisWrite controlId analysisResult =>
    writeAnalysisResult cat mappingResults controlId analysisResult

/-- Apply a sequence of operations. -/
def applyOps (cat : CatalogState) (mappingResults : List (String × MappingResult))
    (ops : List EngineOp) : List (String × MappingResult) :=
  ops.foldl (applyOp cat) mappingResults

/-- Per-entry invariant: no two correspondences share a target id. -/
def entryTargetsNodup (result : MappingResult) : Prop :=
  (result.nistMappings.map (fun m => m.nistControlId)).Nodup

/-- Store-wide invariant. -/
def storeTargetsNodup (mappingResults : List (String × MappingResult)) : Prop :=
  ∀ p ∈ mappingResults, entryTargetsNodup p.2

/-- An analysis result whose parsed mappings carry pairwise-distinct
(normalized) target ids. -/
def analysisTargetsNodup (analysisResult : MappingAnalysisResult) : Prop :=
  (analysisResult.mappings.map (fun m => m.nistControlId)).Nodup

/-- Well-formedness of one operation: overrides are always fine; an
analysis write is fine when its result has no duplicate target. -/
def opTargetsNodup : EngineOp → Prop
  | .override _ _ _ _ _ => True
  | .analysisWrite _ analysisResult => analysisTargetsNodup analysisResult

/-! ### Report summary statistics (ReportService.generateSummaryStats) -/

/-- The input of `generateSummaryStats` (only the fields it reads). -/
structure ReportData where
  mappings : List MappingResult
  nistControls : List NISTControl

/-- The summary statistics record. -/
structure SummaryStats where
  totalISMControls : ℕ
  totalMappings : ℕ
  confidenceDistribution : ℕ × ℕ × ℕ × ℕ × ℕ × ℕ
  familyDistribution : List (String × ℕ)
  manualOverrides : ℕ
  averageProcessingTime : ℚ

/-- The bucket increments for one correspondence. -/
def bucketAdd (confidence : ℚ) (d : ℕ × ℕ × ℕ × ℕ × ℕ × ℕ) :
    ℕ × ℕ × ℕ × ℕ × ℕ × ℕ :=
  let (a, b, c, e, f, g) := d
  if (95 : ℚ) ≤ confidence then (a + 1, b, c, e, f, g)
  else if (85 : ℚ) ≤ confidence then (a, b + 1, c, e, f, g)
  else if (75 : ℚ) ≤ confidence then (a, b, c + 1, e, f, g)
  else if (65 : ℚ) ≤ confidence then (a, b, c, e + 1, f, g)
  else if (55 : ℚ) ≤ confidence then (a, b, c, e, f + 1, g)
  else (a, b, c, e, f, g + 1)

/-- The inner loop over one entry's correspondences. -/
def statsInner (nistControls : List NISTControl)
    (acc : ℕ × (ℕ × ℕ × ℕ × ℕ × ℕ × ℕ) × List (String × ℕ) × ℕ)
    (nistMapping : NistMappingItem) :
    ℕ × (ℕ × ℕ × ℕ × ℕ × ℕ × ℕ) × List (String × ℕ) × ℕ :=
  let (totalMappings, dist, fam, overrides) := acc
  let totalMappings := totalMappings + 1
  let dist := bucketAdd nistMapping.confidence dist
  let overrides := if nistMapping.isManualOverride then overrides + 1 else overrides
  let fam :=
    match nistControls.find? (fun c => c.id = nistMapping.nistControlId) with
    | some nistControl =>
      let family := nistControl.family
      mapSet fam family ((mapGet fam family).getD 0 + 1)
    | none => fam
  (totalMappings, dist, fam, overrides)

/-- The outer loop body of `generateSummaryStats` over one entry. -/
def reportStep (nistControls : List NISTControl)
    (acc : ℚ × ℕ × (ℕ × ℕ × ℕ × ℕ × ℕ × ℕ) × List (String × ℕ) × ℕ)
    (mapping : MappingResult) :
    ℚ × ℕ × (ℕ × ℕ × ℕ × ℕ × ℕ × ℕ) × List (String × ℕ) × ℕ :=
  (acc.1 + mapping.processingTime,
   mapping.nistMappings.foldl (statsInner nistControls) acc.2)

/-- `ReportService.generateSummaryStats`. -/
def generateSummaryStats (reportData : ReportData) : SummaryStats :=
  let init : ℚ × ℕ × (ℕ × ℕ × ℕ × ℕ × ℕ × ℕ) × List (String × ℕ) × ℕ :=
    (0, 0, (0, 0, 0, 0, 0, 0), [], 0)
  let folded := reportData.mappings.foldl (reportStep reportData.nistControls) init
  let (totalProcessingTime, totalMappings, dist, fam, overrides) := folded
  { totalISMControls := reportData.mappings.length
    totalMappings := totalMappings
    confidenceDistribution := dist
    familyDistribution := fam
    manualOverrides := overrides
    averageProcessingTime :=
      if 0 < totalMappings then totalProcessingTime / (reportData.mappings.length : ℚ)
      else 0 }

/-- The entry produced by `applyManualOverride` when the existing entry
already holds a correspondence for the target id. -/
def overrideUpdatedEntry (cat : CatalogState) (n : String) (c : ℚ)
    (r : String) (e : MappingResult) : MappingResult :=
  let l := updateFirst (fun m => m.nistControlId = n)
    (overrideItemUpdate (getNISTControlMetadata cat n) c r) e.nistMappings
  { e with nistMappings := l }

/-- The entry produced by `applyManualOverride` when the existing entry
has no correspondence for the target id yet. -/
def overrideAppendedEntry (cat : CatalogState) (n : String) (c : ℚ)
    (r : String) (e : MappingResult) : MappingResult :=
  let l := e.nistMappings ++ [overrideItemNew n (getNISTControlMetadata cat n) c r]
  { e with nistMappings := l }

/-- The entry freshly created by `applyManualOverride`. -/
def overrideFreshEntry (cat : CatalogState) (i n : String) (c : ℚ)
    (r : String) (now : ℤ) : MappingResult :=
  { ismControlId := i
    nistMappings := [overrideItemNew n (getNISTControlMetadata cat n) c r]
    processingTimestamp := now
    aiModel := "manual-override"
    processingTime := 0 }

/-! ### Concrete instances used in counterexamples and witnesses -/

/-- The number of correspondences an entry of the store holds for one
target id. -/
def countTarget (st : List (String × MappingResult)) (i n : String) : ℕ :=
  match mapGet st i with
  | some e => (e.nistMappings.map (fun m => m.nistControlId)).count n
  | none => 0

/-- An empty, ready catalog. -/
def emptyCat : CatalogState :=
  { ismControls := [], nistControls := [],
    ismControlsLoaded := true, nistControlsLoaded := true }

/-- One well-formed element of a model response. -/
def responseElement (id : String) (conf : ℚ) (why : String) : JsValue :=
  .obj [("nistControlId", .str id), ("confidence", .num conf),
        ("reasoning", .str why)]

/-- A parsed model response whose two elements normalize to the same
target id. -/
def dupTargetJson : JsValue :=
  .obj [("mappings", .arr [responseElement "AC-1" 80 "a",
                           responseElement "ac-1" 70 "b"])]

/-- The analysis result obtained by parsing that response. -/
def dupTargetAnalysis : MappingAnalysisResult :=
  { mappings := parseResponse (fun _ => some dupTargetJson) "\x7bx\x7d"
    processingTime := 1
    model := "llama3.1"
    timestamp := 0 }

/-- The store after writing that analysis result for one ISM control. -/
def dupTargetStore : List (String × MappingResult) :=
  applyOps emptyCat [] [.analysisWrite "ISM-1" dupTargetAnalysis]

/-- A single-target override operation. -/
def singleOverrideOp : EngineOp :=
  .override "ISM-2" "AU-3" 95 "manual review" 7

/-- A well-formed response element with padded lower-case id and
overflowing confidence. -/
def c7Element : JsValue := responseElement "ac-1 " 150 "r"

/-- The candidate `convertElement` produces for it. -/
def c7Candidate : ControlMapping :=
  { nistControlId := normalizeNistControlId "ac-1 "
    confidence := clampConfidence 150
    reasoning := JsValue.str "r" }

/-- Catalog with the reference control titled one way. -/
def c4CatOld : CatalogState :=
  { ismControls := []
    nistControls := [{ id := "AC-1", title := "Old title",
                       description := "Old description", family := "AC" }]
    ismControlsLoaded := true
    nistControlsLoaded := true }

/-- The same catalog after a reload changed that title. -/
def c4CatNew : CatalogState :=
  { ismControls := []
    nistControls := [{ id := "AC-1", title := "New title",
                       description := "New description", family := "AC" }]
    ismControlsLoaded := true
    nistControlsLoaded := true }

/-- An analysis result with a single candidate for the reference
control. -/
def c4Analysis : MappingAnalysisResult :=
  { mappings := [{ nistControlId := "AC-1", confidence := 80,
                   reasoning := .str "r" }]
    processingTime := 1
    model := "llama3.1"
    timestamp := 0 }

/-- The store after that result was written under the old catalog. -/
def c4Store : List (String × MappingResult) :=
  writeAnalysisResult c4CatOld [] "ISM-1" c4Analysis

/-- Two batch items for the batch-completeness witness. -/
def c3CtrlA : ISMControl := { id := "A", title := "tA", description := "dA" }

/-- The failing batch item. -/
def c3CtrlB : ISMControl := { id := "B", title := "tB", description := "dB" }

/-- The analysis result the first item succeeds with. -/
def c3Analysis : MappingAnalysisResult :=
  { mappings := [{ nistControlId := "AC-1", confidence := 80,
                   reasoning := .str "r" }]
    processingTime := 1
    model := "llama3.1"
    timestamp := 0 }

/-- The initial batch state: a fresh two-item job over empty stores. -/
def c3Start : BatchState :=
  { job := mkJob "job1" 2 0, mappingResults := [], resultsQueue := [] }

/-- One success followed by one failure. -/
def c3Outcomes : List (ISMControl × Option MappingAnalysisResult) :=
  [(c3CtrlA, some c3Analysis), (c3CtrlB, none)]


/-- An entry with elapsed time 5 and no correspondences. -/
def c9Entry : MappingResult :=
  { ismControlId := "ISM-1"
    nistMappings := []
    processingTimestamp := 0
    aiModel := "llama3.1"
    processingTime := 5 }

/-- The report data holding just that entry. -/
def c9Data : ReportData :=
  { mappings := [c9Entry], nistControls := [] }

/-- One entry carrying one correspondence, elapsed time 4. -/
def c9WitnessEntry : MappingResult :=
  { ismControlId := "ISM-1"
    nistMappings := [{ nistControlId := "AC-1"
                       nistTitle := "t"
                       nistDescription := "d"
                       confidence := 80
                       reasoning := .str "r"
                       isManualOverride := false }]
    processingTimestamp := 0
    aiModel := "llama3.1"
    processingTime := 4 }

/-- The report data holding just that entry. -/
def c9WitnessData : ReportData :=
  { mappings := [c9WitnessEntry], nistControls := [] }

/-! ### Helper lemmas -/

theorem map_self_of_eq {α : Type} (l : List α) (f : α → α)
    (h : ∀ a ∈ l, f a = a) : l.map f = l := by
  induction l with
  | nil => rfl
  | cons x xs ih =>
    rw [List.map_cons, h x (List.mem_cons_self _ _),
      ih (fun a ha => h a (List.mem_cons_of_mem _ ha))]

theorem mapM_convert_error (xs : List JsValue)
    (h : ∃ m ∈ xs, convertElement m = .error ()) :
    xs.mapM convertElement = .error () := by
  induction xs with
  | nil => simp at h
  | cons x rest ih =>
    rcases h with ⟨m, hm, herr⟩
    rcases List.mem_cons.mp hm with rfl | hmem
    · rw [List.mapM_cons, herr]
      rfl
    · rw [List.mapM_cons]
      cases hx : convertElement x with
      | error e =>
        cases e
        rfl
      | ok y =>
        have := ih ⟨m, hmem, herr⟩
        rw [show rest.mapM convertElement = Except.error () from this]
        rfl

theorem clampConfidence_mono {a b : ℚ} (h : a ≤ b) :
    clampConfidence a ≤ clampConfidence b := by
  unfold clampConfidence
  exact max_le_max le_rfl (min_le_min le_rfl h)

theorem clampConfidence_nonpos {q : ℚ} (h : q ≤ 0) : clampConfidence q = 0 := by
  unfold clampConfidence
  rw [min_eq_right (le_trans h (by norm_num)), max_eq_left h]

theorem clampConfidence_ge_hundred {q : ℚ} (h : 100 ≤ q) :
    clampConfidence q = 100 := by
  unfold clampConfidence
  rw [min_eq_left h, max_eq_right (by norm_num)]

theorem clampConfidence_of_mem {q : ℚ} (h0 : 0 ≤ q) (h1 : q ≤ 100) :
    clampConfidence q = q := by
  unfold clampConfidence
  rw [min_eq_right h1, max_eq_right h0]

theorem clampConfidence_nonneg (q : ℚ) : 0 ≤ clampConfidence q :=
  le_max_left _ _

theorem clampConfidence_le_hundred (q : ℚ) : clampConfidence q ≤ 100 :=
  max_le (by norm_num) (min_le_left _ _)

/-! ### C2 -/

/-- C2: for every response text: if no brace substring is found, or the
extracted substring fails to parse as JSON, or the parsed value has no
`mappings` array, or some element of `mappings` is missing
`nistControlId`, a numeric `confidence`, or `reasoning`, then
`parseResponse` returns exactly the single fallback candidate with
confidence 50 pointing at the fixed placeholder target `AC-1` (the
whole response is rejected); `parseResponse` is a total function, so it
never throws. -/
theorem parseResponse_failure_fallback (jp : String → Option JsValue)
    (content : String)
    (h : extractBraces content = none
      ∨ (∃ sub, extractBraces content = some sub ∧ jp sub = none)
      ∨ (∃ sub v, extractBraces content = some sub ∧ jp sub = some v ∧
          ∀ xs, v.getField "mappings" ≠ .arr xs)
      ∨ (∃ sub v xs m, extractBraces content = some sub ∧ jp sub = some v ∧
          v.getField "mappings" = .arr xs ∧ m ∈ xs ∧
          (m.getField "nistControlId" = .undefined ∨
           (∀ q : ℚ, m.getField "confidence" ≠ .num q) ∨
           m.getField "reasoning" = .undefined))) :
    parseResponse jp content = [fallbackMapping] ∧
    fallbackMapping.confidence = 50 ∧
    fallbackMapping.nistControlId = "AC-1" := by
  refine ⟨?_, rfl, by decide⟩
  have hcore : parseResponseCore jp content = .error () := by
    rcases h with h | ⟨sub, hsub, hjp⟩ | ⟨sub, v, hsub, hjp, hmap⟩ |
      ⟨sub, v, xs, m, hsub, hjp, hmap, hmem, hbad⟩
    · simp [parseResponseCore, h]
    · simp [parseResponseCore, hsub, hjp]
    · cases hfield : v.getField "mappings" with
      | arr ys => exact absurd hfield (hmap ys)
      | undefined => simp [parseResponseCore, hsub, hjp, hfield]
      | null => simp [parseResponseCore, hsub, hjp, hfield]
      | bool b => simp [parseResponseCore, hsub, hjp, hfield]
      | num q => simp [parseResponseCore, hsub, hjp, hfield]
      | str s => simp [parseResponseCore, hsub, hjp, hfield]
      | obj fields => simp [parseResponseCore, hsub, hjp, hfield]
    · simp only [parseResponseCore, hsub, hjp, hmap]
      apply mapM_convert_error xs
      refine ⟨m, hmem, ?_⟩
      unfold convertElement
      rcases hbad with hb | hb | hb
      · rw [hb]
        rfl
      · have : (m.getField "confidence").isNum = false := by
          cases hc : m.getField "confidence" with
          | num q => exact absurd hc (hb q)
          | undefined => rfl
          | null => rfl
          | bool b => rfl
          | str s => rfl
          | arr ys => rfl
          | obj fields => rfl
        rw [this]
        simp
      · rw [hb]
        simp [JsValue.truthy]
  unfold parseResponse
  rw [hcore]

/-- C2 witness: a response with no JSON object at all yields the
fallback candidate. -/
theorem parseResponse_failure_fallback_witness :
    parseResponse (fun _ => none) "no json here" = [fallbackMapping] ∧
    fallbackMapping.confidence = 50 ∧
    fallbackMapping.nistControlId = "AC-1" :=
  parseResponse_failure_fallback (fun _ => none) "no json here"
    (Or.inl (by decide))

/-! ### C7 -/

/-- C7: every successfully parsed AI candidate stores the input
confidence clamped into [0,100] (0 for inputs ≤ 0, 100 for inputs
≥ 100, unchanged in between, monotone in the input) and stores the
input `nistControlId` uppercased and trimmed. -/
theorem parsed_candidate_normalized (m : JsValue) (s : String) (q : ℚ)
    (cm : ControlMapping)
    (hid : m.getField "nistControlId" = .str s)
    (hconf : m.getField "confidence" = .num q)
    (hok : convertElement m = .ok cm) :
    cm.nistControlId = jsTrim (jsToUpper s) ∧
    cm.confidence = clampConfidence q ∧
    (q ≤ 0 → cm.confidence = 0) ∧
    (100 ≤ q → cm.confidence = 100) ∧
    (0 ≤ q → q ≤ 100 → cm.confidence = q) ∧
    0 ≤ cm.confidence ∧ cm.confidence ≤ 100 ∧
    (∀ a b : ℚ, a ≤ b → clampConfidence a ≤ clampConfidence b) := by
  unfold convertElement at hok
  rw [hid, hconf] at hok
  by_cases htr : (JsValue.str s).truthy
  · by_cases hre : (m.getField "reasoning").truthy
    · rw [if_neg (by simp [htr, hre, JsValue.isNum])] at hok
      have hcm : cm = { nistControlId := normalizeNistControlId s
                        confidence := clampConfidence q
                        reasoning := m.getField "reasoning" } := by
        cases hok
        rfl
      subst hcm
      refine ⟨rfl, rfl, ?_, ?_, ?_, ?_, ?_, ?_⟩
      · exact fun h => clampConfidence_nonpos h
      · exact fun h => clampConfidence_ge_hundred h
      · exact fun h0 h1 => clampConfidence_of_mem h0 h1
      · exact clampConfidence_nonneg q
      · exact clampConfidence_le_hundred q
      · exact fun a b h => clampConfidence_mono h
    · rw [if_pos (by simp [hre])] at hok
      exact absurd hok (by simp)
  · rw [if_pos (by simp [htr])] at hok
    exact absurd hok (by simp)

/-- C7 witness: the element `("ac-1 ", 150, "r")` is stored as
`("AC-1", 100)`. -/
theorem parsed_candidate_normalized_witness :
    c7Candidate.nistControlId = "AC-1" ∧ c7Candidate.confidence = 100 := by
  have h := parsed_candidate_normalized c7Element "ac-1 " 150 c7Candidate
    rfl rfl rfl
  refine ⟨?_, h.2.2.2.1 (by norm_num)⟩
  rw [h.1]
  decide

/-! ### Fold characterizations for the statistics -/

theorem confStep_foldl (l : List NistMappingItem) (a : ℤ × ℤ × ℚ × ℚ × ℕ × ℕ) :
    (l.foldl confStep a).2.2.2.1 = a.2.2.2.1 + (l.map (fun m => m.confidence)).sum ∧
    (l.foldl confStep a).2.2.2.2.1 = a.2.2.2.2.1 + l.length := by
  induction l generalizing a with
  | nil => simp
  | cons x xs ih =>
    rw [List.foldl_cons]
    rcases ih (confStep a x) with ⟨h1, h2⟩
    constructor
    · rw [h1]
      simp [confStep]
      ring
    · rw [h2]
      simp [confStep]
      omega

theorem metadataStep_foldl (results : List MappingResult)
    (a : ℤ × ℤ × ℚ × ℚ × ℕ × ℕ) :
    (results.foldl metadataStep a).2.2.2.1 =
      a.2.2.2.1 + (((results.map (fun r => r.nistMappings)).flatten).map
        (fun m => m.confidence)).sum ∧
    (results.foldl metadataStep a).2.2.2.2.1 =
      a.2.2.2.2.1 + ((results.map (fun r => r.nistMappings)).flatten).length := by
  induction results generalizing a with
  | nil => simp
  | cons r rs ih =>
    rw [List.foldl_cons]
    rcases ih (metadataStep a r) with ⟨h1, h2⟩
    have hstep := confStep_foldl r.nistMappings
      (if r.processingTimestamp < a.1 then r.processingTimestamp else a.1,
       if a.2.1 < r.processingTimestamp then r.processingTimestamp else a.2.1,
       a.2.2.1 + r.processingTime, a.2.2.2.1, a.2.2.2.2.1, a.2.2.2.2.2)
    have hms : metadataStep a r = r.nistMappings.foldl confStep
        (if r.processingTimestamp < a.1 then r.processingTimestamp else a.1,
         if a.2.1 < r.processingTimestamp then r.processingTimestamp else a.2.1,
         a.2.2.1 + r.processingTime, a.2.2.2.1, a.2.2.2.2.1, a.2.2.2.2.2) := rfl
    constructor
    · rw [h1, hms, hstep.1]
      simp
      ring
    · rw [h2, hms, hstep.2]
      simp
      omega

/-! ### C6 -/

/-- C6: for every mapping state and catalog,
`unmappedControls + number-of-entries = totalISMControls`, and
`averageConfidence` is the mean over all correspondences of all entries
pooled together, 0 when there are no correspondences. -/
theorem stats_consistency (cat : CatalogState) (st : EngineState) (now : ℤ) :
    (calculateProcessingMetadata cat st now).unmappedControls +
      (st.mappingResults.length : ℤ) = (cat.ismControls.length : ℤ) ∧
    (calculateProcessingMetadata cat st now).processedControls =
      (st.mappingResults.length : ℤ) ∧
    (calculateProcessingMetadata cat st now).totalISMControls =
      (cat.ismControls.length : ℤ) ∧
    (calculateProcessingMetadata cat st now).averageConfidence =
      (if (((st.mappingResults.map Prod.snd).map
              (fun r => r.nistMappings)).flatten).length = 0 then 0
       else ((((st.mappingResults.map Prod.snd).map
              (fun r => r.nistMappings)).flatten).map
                (fun m => m.confidence)).sum /
            ((((st.mappingResults.map Prod.snd).map
              (fun r => r.nistMappings)).flatten).length : ℚ)) := by
  have hfold := metadataStep_foldl (st.mappingResults.map Prod.snd)
    (now, 0, 0, 0, 0, 0)
  refine ⟨?_, ?_, ?_, ?_⟩
  · simp [calculateProcessingMetadata]
  · simp [calculateProcessingMetadata]
  · simp [calculateProcessingMetadata]
  · show (let results := st.mappingResults.map Prod.snd;
      let x := results.foldl metadataStep (now, 0, 0, 0, 0, 0);
      if 0 < x.2.2.2.2.1 then x.2.2.2.1 / (x.2.2.2.2.1 : ℚ) else 0) = _
    simp only
    rw [hfold.1, hfold.2]
    simp only [zero_add]
    by_cases hc : (((st.mappingResults.map Prod.snd).map
        (fun r => r.nistMappings)).flatten).length = 0
    · rw [if_neg (by omega), if_pos hc]
    · rw [if_pos (by omega), if_neg hc]

/-! ### C10 -/

/-- C10: `reset` clears every mapping entry and every job but not the
transient results queue: with a non-empty queue, immediately after
`reset` the queue still reports and returns the previously queued
items, while every mapping lookup is `null` and the `totalMappings`
statistic is 0. -/
theorem reset_preserves_queue (cat : CatalogState) (st : EngineState)
    (h : st.resultsQueue ≠ []) :
    hasNewResults (reset st) none = true ∧
    (getNewResults (reset st) none).1 = st.resultsQueue ∧
    (∀ ismControlId, getMappingResult cat (reset st).mappingResults ismControlId = none) ∧
    (getProcessingStats (reset st)).2.2.2.2 = 0 := by
  refine ⟨?_, rfl, ?_, rfl⟩
  · simp [hasNewResults, reset]
    exact List.length_pos.mpr h
  · intro ismControlId
    rfl

/-- C10 witness: a concrete state with one queued item. -/
theorem reset_preserves_queue_witness :
    (let entry : MappingResult :=
      { ismControlId := "ISM-1", nistMappings := [], processingTimestamp := 0,
        aiModel := "llama3.1", processingTime := 1 }
     let st : EngineState :=
      { aiServiceInitialized := true, activeJobs := [],
        mappingResults := [("ISM-1", entry)],
        resultsQueue := [{ jobId := "job1", result := entry, timestamp := 2 }] }
     hasNewResults (reset st) none = true ∧
     (getNewResults (reset st) none).1 = st.resultsQueue ∧
     (∀ ismControlId, getMappingResult
        { ismControls := [], nistControls := [],
          ismControlsLoaded := true, nistControlsLoaded := true }
        (reset st).mappingResults ismControlId = none) ∧
     (getProcessingStats (reset st)).2.2.2.2 = 0) := by
  exact reset_preserves_queue _ _ (by simp)

/-! ### C5 -/

/-- C5: `startProcessing` fails with the not-initialized error when the
AI service is missing, with the not-ready error when the catalog is not
ready, silently drops supplied ids not found in the catalog (the batch
is exactly the found records, in order), fails with the empty-batch
error when the resulting batch is empty, and every failure leaves the
engine state (jobs table and mapping state) unchanged. -/
theorem startProcessing_preconditions (cat : CatalogState) (st : EngineState)
    (controlIds : Option (List String)) (jobId : String) (startTime : ℤ) :
    (st.aiServiceInitialized = false →
      startProcessing cat st controlIds jobId startTime =
        (.error .notInitialized, st)) ∧
    (st.aiServiceInitialized = true → cat.isReady = false →
      startProcessing cat st controlIds jobId startTime =
        (.error .notReady, st)) ∧
    (∀ ids, controlIds = some ids → st.aiServiceInitialized = true →
      cat.isReady = true → ids.filterMap cat.getISMControlById = [] →
      startProcessing cat st controlIds jobId startTime =
        (.error .noISMControls, st)) ∧
    (∀ ids j batch stOut, controlIds = some ids →
      startProcessing cat st controlIds jobId startTime = (.ok (j, batch), stOut) →
      batch = ids.filterMap cat.getISMControlById) ∧
    (∀ e, (startProcessing cat st controlIds jobId startTime).1 = .error e →
      (startProcessing cat st controlIds jobId startTime).2 = st) := by
  refine ⟨?_, ?_, ?_, ?_, ?_⟩
  · intro h
    simp [startProcessing, h]
  · intro h1 h2
    simp [startProcessing, h1, h2]
  · intro ids hids h1 h2 hempty
    subst hids
    simp [startProcessing, h1, h2, hempty]
  · intro ids j batch stOut hids hok
    subst hids
    by_cases h1 : st.aiServiceInitialized
    · by_cases h2 : cat.isReady
      · by_cases h3 : (ids.filterMap cat.getISMControlById).length = 0
        · simp [startProcessing, h1, h2, h3] at hok
        · by_cases h4 : cat.nistControls.length = 0
          · simp [startProcessing, h1, h2, h3, h4] at hok
          · simp [startProcessing, h1, h2, h3, h4] at hok
            exact hok.1.2.symm
      · simp [startProcessing, h1, h2] at hok
    · simp [startProcessing, h1] at hok
  · intro e herr
    by_cases h1 : st.aiServiceInitialized
    · by_cases h2 : cat.isReady
      · cases controlIds with
        | none =>
          by_cases h3 : cat.ismControls.length = 0
          · simp [startProcessing, h1, h2, h3]
          · by_cases h4 : cat.nistControls.length = 0
            · simp [startProcessing, h1, h2, h3, h4]
            · simp [startProcessing, h1, h2, h3, h4] at herr
        | some ids =>
          by_cases h3 : (ids.filterMap cat.getISMControlById).length = 0
          · simp [startProcessing, h1, h2, h3]
          · by_cases h4 : cat.nistControls.length = 0
            · simp [startProcessing, h1, h2, h3, h4]
            · simp [startProcessing, h1, h2, h3, h4] at herr
      · simp [startProcessing, h1, h2]
    · simp [startProcessing, h1]

/-- C5 witness: with the AI service missing, a start attempt returns
the not-initialized error and leaves the state unchanged. -/
theorem startProcessing_preconditions_witness :
    (startProcessing
      { ismControls := [], nistControls := [],
        ismControlsLoaded := true, nistControlsLoaded := true }
      { aiServiceInitialized := false, activeJobs := [],
        mappingResults := [], resultsQueue := [] }
      none "job1" 0) =
      (.error .notInitialized,
       { aiServiceInitialized := false, activeJobs := [],
         mappingResults := [], resultsQueue := [] }) :=
  (startProcessing_preconditions _ _ none "job1" 0).1 rfl

/-! ### C9 -/

/-- C9 counterexample: with one entry (elapsed time 5) and no
correspondences, the entry-level mean is 5 but the code returns 0,
because the zero-guard tests the correspondence count rather than the
entry count. -/
theorem report_average_time_counterexample :
    c9Data.mappings.length = 1 ∧
    (c9Data.mappings.map (fun m => m.processingTime)).sum /
      (c9Data.mappings.length : ℚ) = 5 ∧
    (generateSummaryStats c9Data).averageProcessingTime = 0 ∧
    (generateSummaryStats c9Data).averageProcessingTime ≠
      (c9Data.mappings.map (fun m => m.processingTime)).sum /
        (c9Data.mappings.length : ℚ) := by
  refine ⟨rfl, by norm_num [c9Data, c9Entry], rfl, ?_⟩
  intro h
  rw [show (generateSummaryStats c9Data).averageProcessingTime = 0 from rfl] at h
  norm_num [c9Data, c9Entry] at h

theorem statsInner_foldl_count (nistControls : List NISTControl)
    (l : List NistMappingItem)
    (acc : ℕ × (ℕ × ℕ × ℕ × ℕ × ℕ × ℕ) × List (String × ℕ) × ℕ) :
    (l.foldl (statsInner nistControls) acc).1 = acc.1 + l.length := by
  induction l generalizing acc with
  | nil => simp
  | cons x xs ih =>
    rw [List.foldl_cons, ih]
    simp [statsInner]
    omega

theorem reportStep_foldl (nistControls : List NISTControl)
    (mappings : List MappingResult)
    (acc : ℚ × ℕ × (ℕ × ℕ × ℕ × ℕ × ℕ × ℕ) × List (String × ℕ) × ℕ) :
    (mappings.foldl (reportStep nistControls) acc).1 =
      acc.1 + (mappings.map (fun m => m.processingTime)).sum ∧
    (mappings.foldl (reportStep nistControls) acc).2.1 =
      acc.2.1 + ((mappings.map (fun m => m.nistMappings)).flatten).length := by
  induction mappings generalizing acc with
  | nil => simp
  | cons m ms ih =>
    rw [List.foldl_cons]
    rcases ih (reportStep nistControls acc m) with ⟨h1, h2⟩
    constructor
    · rw [h1]
      show acc.1 + m.processingTime + _ = _
      simp
      ring
    · rw [h2]
      show (m.nistMappings.foldl (statsInner nistControls) acc.2).1 + _ = _
      rw [statsInner_foldl_count]
      simp
      omega

/-- C9 amended: `averageProcessingTime` equals the sum of entry-level
elapsed times divided by the number of entries whenever at least one
correspondence exists across all entries, and equals 0 when the total
correspondence count is 0 — even when entries exist. -/
theorem report_average_time_formula (reportData : ReportData) :
    (0 < (generateSummaryStats reportData).totalMappings →
      (generateSummaryStats reportData).averageProcessingTime =
        (reportData.mappings.map (fun m => m.processingTime)).sum /
          (reportData.mappings.length : ℚ)) ∧
    ((generateSummaryStats reportData).totalMappings = 0 →
      (generateSummaryStats reportData).averageProcessingTime = 0) := by
  have hfold := reportStep_foldl reportData.nistControls reportData.mappings
    (0, 0, (0, 0, 0, 0, 0, 0), [], 0)
  have htm : (generateSummaryStats reportData).totalMappings =
      (reportData.mappings.foldl (reportStep reportData.nistControls)
        (0, 0, (0, 0, 0, 0, 0, 0), [], 0)).2.1 := rfl
  constructor
  · intro hpos
    rw [htm] at hpos
    show (if 0 < (reportData.mappings.foldl (reportStep reportData.nistControls)
        (0, 0, (0, 0, 0, 0, 0, 0), [], 0)).2.1 then
        (reportData.mappings.foldl (reportStep reportData.nistControls)
          (0, 0, (0, 0, 0, 0, 0, 0), [], 0)).1 / (reportData.mappings.length : ℚ)
      else 0) = _
    rw [if_pos hpos, hfold.1]
    simp
  · intro hzero
    rw [htm] at hzero
    show (if 0 < (reportData.mappings.foldl (reportStep reportData.nistControls)
        (0, 0, (0, 0, 0, 0, 0, 0), [], 0)).2.1 then
        (reportData.mappings.foldl (reportStep reportData.nistControls)
          (0, 0, (0, 0, 0, 0, 0, 0), [], 0)).1 / (reportData.mappings.length : ℚ)
      else 0) = 0
    rw [if_neg (by omega)]

/-- C9 amended witness: one entry with one correspondence and elapsed
time 4 gives average 4. -/
theorem report_average_time_formula_witness :
    (generateSummaryStats c9WitnessData).averageProcessingTime = 4 := by
  have h := (report_average_time_formula c9WitnessData).1 (by norm_num [c9WitnessData,
    c9WitnessEntry, generateSummaryStats, reportStep, statsInner, bucketAdd])
  rw [h]
  norm_num [c9WitnessData, c9WitnessEntry]

/-! ### Map and updateFirst lemmas -/

theorem mapGet_mapSet_self {α : Type} (m : List (String × α)) (k : String) (v : α) :
    mapGet (mapSet m k v) k = some v := by
  induction m with
  | nil => simp [mapGet, mapSet]
  | cons p rest ih =>
    by_cases h : p.1 = k
    · simp [mapGet, mapSet, h]
    · simp [mapGet, mapSet, h, ih]

theorem mapGet_mapSet_ne {α : Type} (m : List (String × α)) (k key : String)
    (v : α) (h : k ≠ key) : mapGet (mapSet m k v) key = mapGet m key := by
  induction m with
  | nil => simp [mapGet, mapSet, h]
  | cons p rest ih =>
    by_cases hp : p.1 = k
    · have hkey : ¬ p.1 = key := fun hk => h (hp.symm.trans hk)
      simp [mapGet, mapSet, hp, hkey, h]
    · simp only [mapSet, if_neg hp]
      by_cases hq : p.1 = key
      · simp [mapGet, hq]
      · simp [mapGet, hq, ih]

theorem mapSet_mapSet {α : Type} (m : List (String × α)) (k : String) (v w : α) :
    mapSet (mapSet m k v) k w = mapSet m k w := by
  induction m with
  | nil => simp [mapSet]
  | cons p rest ih =>
    by_cases h : p.1 = k
    · simp [mapSet, h]
    · simp [mapSet, h, ih]

theorem mapGet_mem {α : Type} {m : List (String × α)} {k : String} {v : α}
    (h : mapGet m k = some v) : (k, v) ∈ m := by
  induction m with
  | nil => simp [mapGet] at h
  | cons p rest ih =>
    by_cases hp : p.1 = k
    · simp [mapGet, hp] at h
      have hpv : (k, v) = p := by
        rw [← hp, ← h]
      exact List.mem_cons.mpr (Or.inl hpv)
    · simp [mapGet, hp] at h
      exact List.mem_cons.mpr (Or.inr (ih h))

theorem mem_mapSet {α : Type} {m : List (String × α)} {k : String} {v : α}
    {p : String × α} (h : p ∈ mapSet m k v) : p = (k, v) ∨ p ∈ m := by
  induction m with
  | nil =>
    simp [mapSet] at h
    left
    exact h
  | cons q rest ih =>
    by_cases hq : q.1 = k
    · simp only [mapSet, if_pos hq] at h
      rcases List.mem_cons.mp h with rfl | hm
      · left
        rw [hq]
      · right
        exact List.mem_cons_of_mem _ hm
    · simp only [mapSet, if_neg hq] at h
      rcases List.mem_cons.mp h with rfl | hm
      · right
        exact List.mem_cons_self _ _
      · rcases ih hm with h1 | h1
        · left
          exact h1
        · right
          exact List.mem_cons_of_mem _ h1

theorem updateFirst_map {α β : Type} (p : α → Bool) (f : α → α) (g : α → β)
    (hg : ∀ a, p a = true → g (f a) = g a) (l : List α) :
    (updateFirst p f l).map g = l.map g := by
  induction l with
  | nil => rfl
  | cons x xs ih =>
    by_cases hx : p x
    · simp [updateFirst, hx, hg x hx]
    · simp [updateFirst, hx, ih]

theorem updateFirst_any {α : Type} (p : α → Bool) (f : α → α)
    (hf : ∀ a, p a = true → p (f a) = true) (l : List α) :
    (updateFirst p f l).any p = l.any p := by
  induction l with
  | nil => rfl
  | cons x xs ih =>
    by_cases hx : p x
    · simp [updateFirst, hx, hf x hx]
    · simp [updateFirst, hx, ih]

theorem updateFirst_updateFirst {α : Type} (p : α → Bool) (f : α → α)
    (hf : ∀ a, p a = true → p (f a) = true ∧ f (f a) = f a) (l : List α) :
    updateFirst p f (updateFirst p f l) = updateFirst p f l := by
  induction l with
  | nil => rfl
  | cons x xs ih =>
    by_cases hx : p x
    · simp [updateFirst, hx, (hf x hx).1, (hf x hx).2]
    · simp [updateFirst, hx, ih]

theorem updateFirst_append_left {α : Type} (p : α → Bool) (f : α → α)
    {l : List α} (h : l.any p = false) (l2 : List α) :
    updateFirst p f (l ++ l2) = l ++ updateFirst p f l2 := by
  induction l with
  | nil => rfl
  | cons x xs ih =>
    rw [List.any_cons] at h
    have hx := Bool.or_eq_false_iff.mp h
    simp [updateFirst, hx.1, ih hx.2]

/-! ### C1 -/

theorem applyManualOverride_preserves_nodup (cat : CatalogState)
    (st : List (String × MappingResult)) (i n : String) (c : ℚ) (r : String)
    (t : ℤ) (h : storeTargetsNodup st) :
    storeTargetsNodup (applyManualOverride cat st i n c r t) := by
  intro p hp
  cases hget : mapGet st i with
  | none =>
    simp only [applyManualOverride, hget] at hp
    rcases mem_mapSet hp with rfl | hmem
    · simp [entryTargetsNodup, overrideItemNew]
    · exact h p hmem
  | some e =>
    have he : entryTargetsNodup e := h (i, e) (mapGet_mem hget)
    simp only [applyManualOverride, hget] at hp
    by_cases hany : e.nistMappings.any (fun m => m.nistControlId = n) = true
    · rw [if_pos hany] at hp
      rcases mem_mapSet hp with rfl | hmem
      · show ((updateFirst (fun m => m.nistControlId = n)
          (overrideItemUpdate (getNISTControlMetadata cat n) c r)
          e.nistMappings).map (fun m => m.nistControlId)).Nodup
        rw [updateFirst_map (fun m => decide (m.nistControlId = n))
          (overrideItemUpdate (getNISTControlMetadata cat n) c r)
          (fun m => m.nistControlId) (fun a _ => rfl) e.nistMappings]
        exact he
      · exact h p hmem
    · rw [if_neg hany] at hp
      rcases mem_mapSet hp with rfl | hmem
      · show ((e.nistMappings ++
          [overrideItemNew n (getNISTControlMetadata cat n) c r]).map
            (fun m => m.nistControlId)).Nodup
        rw [List.map_append]
        rw [List.nodup_append]
        refine ⟨he, by simp, ?_⟩
        intro a ha hb
        simp [overrideItemNew] at hb
        subst hb
        rcases List.mem_map.mp ha with ⟨m, hm, hid⟩
        rw [List.any_eq_true] at hany
        exact hany ⟨m, hm, by simp [hid]⟩
      · exact h p hmem

theorem writeAnalysisResult_preserves_nodup (cat : CatalogState)
    (st : List (String × MappingResult)) (controlId : String)
    (analysisResult : MappingAnalysisResult) (h : storeTargetsNodup st)
    (hres : analysisTargetsNodup analysisResult) :
    storeTargetsNodup (writeAnalysisResult cat st controlId analysisResult) := by
  intro p hp
  rcases mem_mapSet hp with rfl | hmem
  · show ((buildMappingResult cat controlId analysisResult).nistMappings.map
      (fun m => m.nistControlId)).Nodup
    have : (buildMappingResult cat controlId analysisResult).nistMappings.map
        (fun m => m.nistControlId) =
        analysisResult.mappings.map (fun m => m.nistControlId) := by
      simp [buildMappingResult, List.map_map]
    rw [this]
    exact hres
  · exact h p hmem

/-- C1 counterexample: the parser does not deduplicate normalized
target ids, and an analysis write stores its list wholesale: parsing a
response whose elements name `AC-1` and `ac-1` and writing the result
produces an entry whose two correspondences share the target `AC-1`. -/
theorem store_targets_unique_counterexample :
    ¬ storeTargetsNodup dupTargetStore := by
  intro h
  have hmem : ("ISM-1", buildMappingResult emptyCat "ISM-1" dupTargetAnalysis) ∈
      dupTargetStore :=
    List.mem_singleton.mpr rfl
  have h2 := h _ hmem
  have hids : (buildMappingResult emptyCat "ISM-1" dupTargetAnalysis).nistMappings.map
      (fun m => m.nistControlId) = ["AC-1", "AC-1"] := by decide
  unfold entryTargetsNodup at h2
  rw [hids] at h2
  simp at h2

/-- C1 amended: after any sequence of manual overrides and AI-analysis
writes in which every written analysis result itself carries
pairwise-distinct normalized target ids, no two correspondences of any
entry share a target id (manual overrides preserve the invariant
unconditionally; an analysis write with duplicate normalized targets —
which the parser can produce — violates it). -/
theorem store_targets_unique (cat : CatalogState) (ops : List EngineOp)
    (st : List (String × MappingResult)) (hst : storeTargetsNodup st)
    (hops : ∀ op ∈ ops, opTargetsNodup op) :
    storeTargetsNodup (applyOps cat st ops) := by
  induction ops generalizing st with
  | nil => exact hst
  | cons op rest ih =>
    rw [show applyOps cat st (op :: rest) = applyOps cat (applyOp cat st op) rest
      from rfl]
    refine ih (applyOp cat st op) ?_ (fun o ho => hops o (List.mem_cons_of_mem _ ho))
    cases op with
    | override i n c r t =>
      exact applyManualOverride_preserves_nodup cat st i n c r t hst
    | analysisWrite controlId analysisResult =>
      exact writeAnalysisResult_preserves_nodup cat st controlId analysisResult hst
        (hops _ (List.mem_cons_self _ _))

/-- C1 amended witness: one override applied to the empty store keeps
the invariant. -/
theorem store_targets_unique_witness :
    storeTargetsNodup (applyOps emptyCat [] [singleOverrideOp]) :=
  store_targets_unique emptyCat [singleOverrideOp] []
    (fun p hp => absurd hp (List.not_mem_nil p))
    (fun op hop => by
      rcases List.mem_singleton.mp hop with rfl
      trivial)

/-! ### C8 -/

theorem applyManualOverride_idem (cat : CatalogState)
    (st : List (String × MappingResult)) (i n : String) (c : ℚ) (r : String)
    (t1 t2 : ℤ) :
    applyManualOverride cat (applyManualOverride cat st i n c r t1) i n c r t2 =
      applyManualOverride cat st i n c r t1 := by
  have hpf : ∀ a : NistMappingItem, decide (a.nistControlId = n) = true →
      decide ((overrideItemUpdate (getNISTControlMetadata cat n) c r a).nistControlId = n) = true :=
    fun a ha => ha
  cases hget : mapGet st i with
  | none =>
    have h1 : applyManualOverride cat st i n c r t1 =
        mapSet st i (overrideFreshEntry cat i n c r t1) := by
      simp only [applyManualOverride, hget]
      rfl
    rw [h1]
    simp only [applyManualOverride, mapGet_mapSet_self]
    rw [if_pos (by simp [overrideFreshEntry, overrideItemNew])]
    simp [overrideFreshEntry, updateFirst, overrideItemNew, overrideItemUpdate,
      mapSet_mapSet]
  | some e =>
    by_cases hany : (e.nistMappings.any fun m => decide (m.nistControlId = n)) = true
    · have h1 : applyManualOverride cat st i n c r t1 =
          mapSet st i (overrideUpdatedEntry cat n c r e) := by
        simp only [applyManualOverride, hget, if_pos hany]
        rfl
      rw [h1]
      simp only [applyManualOverride, mapGet_mapSet_self]
      have hany2 : ((overrideUpdatedEntry cat n c r e).nistMappings.any
          fun m => decide (m.nistControlId = n)) = true := by
        show ((updateFirst (fun m => decide (m.nistControlId = n))
          (overrideItemUpdate (getNISTControlMetadata cat n) c r)
          e.nistMappings).any fun m => decide (m.nistControlId = n)) = true
        rw [updateFirst_any _ _ hpf]
        exact hany
      rw [if_pos hany2]
      have h2 : updateFirst (fun m => decide (m.nistControlId = n))
          (overrideItemUpdate (getNISTControlMetadata cat n) c r)
          (overrideUpdatedEntry cat n c r e).nistMappings =
          (overrideUpdatedEntry cat n c r e).nistMappings :=
        updateFirst_updateFirst _ _ (fun a ha => ⟨hpf a ha, rfl⟩) e.nistMappings
      rw [h2]
      exact mapSet_mapSet st i _ _
    · have h1 : applyManualOverride cat st i n c r t1 =
          mapSet st i (overrideAppendedEntry cat n c r e) := by
        simp only [applyManualOverride, hget, if_neg hany]
        rfl
      rw [h1]
      simp only [applyManualOverride, mapGet_mapSet_self]
      have hany2 : ((overrideAppendedEntry cat n c r e).nistMappings.any
          fun m => decide (m.nistControlId = n)) = true := by
        show ((e.nistMappings ++
          [overrideItemNew n (getNISTControlMetadata cat n) c r]).any
          fun m => decide (m.nistControlId = n)) = true
        rw [List.any_append]
        simp [overrideItemNew]
      rw [if_pos hany2]
      have h2 : updateFirst (fun m => decide (m.nistControlId = n))
          (overrideItemUpdate (getNISTControlMetadata cat n) c r)
          (overrideAppendedEntry cat n c r e).nistMappings =
          (overrideAppendedEntry cat n c r e).nistMappings := by
        show updateFirst _ _ (e.nistMappings ++ [_]) = _
        rw [updateFirst_append_left _ _ (Bool.eq_false_iff.mpr hany)]
        simp [updateFirst, overrideItemNew, overrideItemUpdate]
        rfl
      rw [h2]
      exact mapSet_mapSet st i _ _

theorem applyManualOverride_count (cat : CatalogState)
    (st : List (String × MappingResult)) (i n : String) (c : ℚ) (r : String)
    (t : ℤ) (h : countTarget st i n ≤ 1) :
    countTarget (applyManualOverride cat st i n c r t) i n = 1 := by
  cases hget : mapGet st i with
  | none =>
    unfold countTarget
    simp only [applyManualOverride, hget, mapGet_mapSet_self]
    simp [overrideItemNew]
  | some e =>
    have hcnt : (e.nistMappings.map (fun m => m.nistControlId)).count n ≤ 1 := by
      unfold countTarget at h
      rw [hget] at h
      exact h
    by_cases hany : (e.nistMappings.any fun m => decide (m.nistControlId = n)) = true
    · unfold countTarget
      simp only [applyManualOverride, hget, if_pos hany, mapGet_mapSet_self]
      rw [updateFirst_map (fun m => decide (m.nistControlId = n))
        (overrideItemUpdate (getNISTControlMetadata cat n) c r)
        (fun m => m.nistControlId) (fun a _ => rfl) e.nistMappings]
      rw [List.any_eq_true] at hany
      rcases hany with ⟨m, hm, hid⟩
      have hmem : n ∈ e.nistMappings.map (fun m => m.nistControlId) :=
        List.mem_map.mpr ⟨m, hm, by simpa using hid⟩
      have := List.count_pos_iff.mpr hmem
      omega
    · unfold countTarget
      simp only [applyManualOverride, hget, if_neg hany, mapGet_mapSet_self]
      rw [List.map_append, List.count_append]
      have hzero : (e.nistMappings.map (fun m => m.nistControlId)).count n = 0 := by
        rw [List.count_eq_zero]
        intro hmem
        rcases List.mem_map.mp hmem with ⟨m, hm, hid⟩
        rw [List.any_eq_true] at hany
        exact hany ⟨m, hm, by simp [hid]⟩
      rw [hzero]
      simp [overrideItemNew]

theorem applyManualOverride_inplace (cat : CatalogState)
    (st : List (String × MappingResult)) (i n : String) (c : ℚ) (r : String)
    (t : ℤ) (e : MappingResult) (hget : mapGet st i = some e)
    (hany : (e.nistMappings.any fun m => decide (m.nistControlId = n)) = true) :
    ∃ e2, mapGet (applyManualOverride cat st i n c r t) i = some e2 ∧
      e2.nistMappings.map (fun m => m.nistControlId) =
        e.nistMappings.map (fun m => m.nistControlId) := by
  refine ⟨overrideUpdatedEntry cat n c r e, ?_, ?_⟩
  · simp only [applyManualOverride, hget, if_pos hany, mapGet_mapSet_self]
    rfl
  · show (updateFirst (fun m => decide (m.nistControlId = n))
      (overrideItemUpdate (getNISTControlMetadata cat n) c r)
      e.nistMappings).map (fun m => m.nistControlId) = _
    exact updateFirst_map (fun m => decide (m.nistControlId = n))
      (overrideItemUpdate (getNISTControlMetadata cat n) c r)
      (fun m => m.nistControlId) (fun a _ => rfl) e.nistMappings

/-- C8 counterexample: starting from the reachable store whose single
entry already holds two correspondences for target `AC-1`, applying the
override twice with that target leaves two correspondences for it in
the entry, not exactly one. -/
theorem override_idempotent_upsert_counterexample :
    countTarget (applyManualOverride emptyCat (applyManualOverride emptyCat
      dupTargetStore "ISM-1" "AC-1" 90 "manual" 0) "ISM-1" "AC-1" 90 "manual" 1)
      "ISM-1" "AC-1" = 2 := by
  decide

/-- C8 amended: `applyManualOverride` applied twice with the same
arguments equals one application (an idempotent keyed upsert); when the
entry held at most one correspondence for the target id beforehand
(which any state within the per-entry uniqueness invariant satisfies),
exactly one correspondence for it remains after one or two calls; and
when the entry already has a correspondence for the target the call
mutates it in place, preserving the list of target ids position by
position rather than appending a duplicate. -/
theorem override_idempotent_upsert (cat : CatalogState)
    (st : List (String × MappingResult)) (i n : String) (c : ℚ) (r : String)
    (t1 t2 : ℤ) :
    applyManualOverride cat (applyManualOverride cat st i n c r t1) i n c r t2 =
      applyManualOverride cat st i n c r t1 ∧
    (countTarget st i n ≤ 1 →
      countTarget (applyManualOverride cat st i n c r t1) i n = 1 ∧
      countTarget (applyManualOverride cat (applyManualOverride cat st i n c r t1)
        i n c r t2) i n = 1) ∧
    (∀ e, mapGet st i = some e →
      (e.nistMappings.any fun m => decide (m.nistControlId = n)) = true →
      ∃ e2, mapGet (applyManualOverride cat st i n c r t1) i = some e2 ∧
        e2.nistMappings.map (fun m => m.nistControlId) =
          e.nistMappings.map (fun m => m.nistControlId)) := by
  refine ⟨applyManualOverride_idem cat st i n c r t1 t2, fun h => ⟨?_, ?_⟩,
    fun e hget hany => applyManualOverride_inplace cat st i n c r t1 e hget hany⟩
  · exact applyManualOverride_count cat st i n c r t1 h
  · rw [applyManualOverride_idem cat st i n c r t1 t2]
    exact applyManualOverride_count cat st i n c r t1 h

/-- C8 amended witness: overriding twice on the empty store leaves
exactly one correspondence for the target. -/
theorem override_idempotent_upsert_witness :
    countTarget (applyManualOverride emptyCat (applyManualOverride emptyCat
      [] "ISM-1" "AC-1" 90 "manual" 0) "ISM-1" "AC-1" 90 "manual" 1)
      "ISM-1" "AC-1" = 1 :=
  ((override_idempotent_upsert emptyCat [] "ISM-1" "AC-1" 90 "manual" 0 1).2.1
    (by decide)).2


/-! ### C3 -/

theorem batchStep_foldl (cat : CatalogState) (total : ℕ) (queueTime : ℤ)
    (outcomes : List (ISMControl × Option MappingAnalysisResult))
    (acc : ℕ × BatchState) :
    (outcomes.foldl (batchStep cat total queueTime) acc).1 =
      acc.1 + outcomes.length ∧
    (outcomes.foldl (batchStep cat total queueTime) acc).2.job.processedControls =
      (if outcomes.isEmpty then acc.2.job.processedControls
       else acc.1 + outcomes.length) ∧
    (∀ k, (∀ q ∈ outcomes, q.1.id = k → q.2 = none) →
      mapGet (outcomes.foldl (batchStep cat total queueTime) acc).2.mappingResults k =
        mapGet acc.2.mappingResults k) := by
  induction outcomes generalizing acc with
  | nil => simp
  | cons x xs ih =>
    rw [List.foldl_cons]
    rcases ih (batchStep cat total queueTime acc x) with ⟨h1, h2, h3⟩
    have hfst : (batchStep cat total queueTime acc x).1 = acc.1 + 1 := by
      cases hx : x.2 with
      | none => simp [batchStep, hx]
      | some res => simp [batchStep, hx]
    have hproc : (batchStep cat total queueTime acc x).2.job.processedControls =
        acc.1 + 1 := by
      cases hx : x.2 with
      | none => simp [batchStep, hx]
      | some res => simp [batchStep, hx]
    refine ⟨?_, ?_, ?_⟩
    · rw [h1, hfst]
      simp
      omega
    · rw [h2, hfst, hproc]
      cases xs with
      | nil => simp
      | cons y ys =>
        simp
        omega
    · intro k hk
      rw [h3 k (fun q hq hid => hk q (List.mem_cons_of_mem _ hq) hid)]
      cases hx : x.2 with
      | none => simp [batchStep, hx]
      | some res =>
        have hid : ¬ x.1.id = k := by
          intro hxk
          have := hk x (List.mem_cons_self _ _) hxk
          rw [hx] at this
          exact Option.noConfusion this
        simp only [batchStep, hx]
        exact mapGet_mapSet_ne _ _ _ _ hid

/-- C3: a batch over N per-item outcomes always ends with job status
`completed`, `processedControls` equal to N (starting from a fresh
job), full progress, and the mapping store unchanged at every id for
which no successful outcome exists — failed items produce no entry,
only successful ones do. -/
theorem batch_completion (cat : CatalogState) (st : BatchState)
    (outcomes : List (ISMControl × Option MappingAnalysisResult))
    (queueTime endTime : ℤ) (h0 : st.job.processedControls = 0) :
    (runBatch cat st outcomes queueTime endTime).job.status = "completed" ∧
    (runBatch cat st outcomes queueTime endTime).job.processedControls =
      outcomes.length ∧
    (runBatch cat st outcomes queueTime endTime).job.progress = 100 ∧
    (∀ k, (∀ q ∈ outcomes, q.1.id = k → q.2 = none) →
      mapGet (runBatch cat st outcomes queueTime endTime).mappingResults k =
        mapGet st.mappingResults k) := by
  have hfold := batchStep_foldl cat outcomes.length queueTime outcomes
    (0, { st with job := { st.job with status := "processing" } })
  refine ⟨rfl, ?_, rfl, ?_⟩
  · show (outcomes.foldl (batchStep cat outcomes.length queueTime)
      (0, { st with job := { st.job with status := "processing" } })).2.job.processedControls =
      outcomes.length
    rw [hfold.2.1]
    cases hxs : outcomes.isEmpty with
    | true =>
      simp only [if_pos rfl]
      rw [List.isEmpty_iff] at hxs
      simp [hxs, h0]
    | false => simp
  · intro k hk
    show mapGet (outcomes.foldl (batchStep cat outcomes.length queueTime)
      (0, { st with job := { st.job with status := "processing" } })).2.mappingResults k = _
    rw [hfold.2.2 k hk]

/-- C3 witness: a two-item batch with one success (`A`) and one failure
(`B`) completes with both counted and no entry written for `B`. -/
theorem batch_completion_witness :
    (runBatch emptyCat c3Start c3Outcomes 5 6).job.status = "completed" ∧
    (runBatch emptyCat c3Start c3Outcomes 5 6).job.processedControls = 2 ∧
    mapGet (runBatch emptyCat c3Start c3Outcomes 5 6).mappingResults "B" = none := by
  have h := batch_completion emptyCat c3Start c3Outcomes 5 6 rfl
  refine ⟨h.1, h.2.1, ?_⟩
  have hB : ∀ q ∈ c3Outcomes, q.1.id = "B" → q.2 = none := by
    intro q hq
    rcases List.mem_cons.mp hq with rfl | hq2
    · intro hid
      exact absurd hid (by decide)
    · rcases List.mem_singleton.mp hq2 with rfl
      intro _
      rfl
  rw [h.2.2.2 "B" hB]
  rfl


/-! ### C4 -/

theorem getNISTControlMetadata_nonempty (cat : CatalogState) (n : String) :
    (getNISTControlMetadata cat n).1 ≠ "" ∧
    (getNISTControlMetadata cat n).2 ≠ "" := by
  unfold getNISTControlMetadata
  cases hfind : cat.nistControls.find? (fun control =>
      jsToLower control.id = jsToLower n) with
  | none =>
    simp only [hfind]
    exact ⟨by decide, by decide⟩
  | some control =>
    simp only [hfind]
    constructor
    · by_cases ht : control.title.isEmpty = true
      · simp only [if_pos ht]
        decide
      · simp only [if_neg ht]
        intro hx
        exact ht ((String.isEmpty_iff _).mpr hx)
    · by_cases hd : control.description.isEmpty = true
      · simp only [if_pos hd]
        decide
      · simp only [if_neg hd]
        intro hx
        exact hd ((String.isEmpty_iff _).mpr hx)

theorem enrichMapping_of_full (cat : CatalogState) (m : NistMappingItem)
    (h1 : m.nistTitle ≠ "") (h2 : m.nistDescription ≠ "") :
    enrichMapping cat m = m := by
  have he1 : m.nistTitle.isEmpty = false := by
    rw [Bool.eq_false_iff]
    intro hx
    exact h1 ((String.isEmpty_iff _).mp hx)
  have he2 : m.nistDescription.isEmpty = false := by
    rw [Bool.eq_false_iff]
    intro hx
    exact h2 ((String.isEmpty_iff _).mp hx)
  simp [enrichMapping, he1, he2]

/-- C4 counterexample: an entry written under the old catalog keeps its
write-time title/description when read after the catalog has been
reloaded with new text for the same target id — the read does not
re-resolve against the current catalog. -/
theorem read_write_time_denormalization_counterexample :
    ((getMappingResult c4CatNew c4Store "ISM-1").map
      (fun r => r.nistMappings.map (fun m => (m.nistTitle, m.nistDescription)))) =
      some [("Old title", "Old description")] ∧
    getNISTControlMetadata c4CatNew "AC-1" = ("New title", "New description") ∧
    ("Old title" : String) ≠ "New title" := by
  exact ⟨by decide, by decide, by decide⟩

/-- C4 amended: the denormalized target title/description are resolved
at write time; the read path keeps any correspondence whose stored
title and description are non-empty, so such entries read back
identically under any catalog (a catalog reload does not refresh their
display text), and every entry the analysis write path produces has
non-empty stored title and description. -/
theorem read_write_time_denormalization (cat : CatalogState)
    (st : List (String × MappingResult)) (i : String) (e : MappingResult)
    (hget : mapGet st i = some e)
    (hfull : ∀ m ∈ e.nistMappings, m.nistTitle ≠ "" ∧ m.nistDescription ≠ "") :
    getMappingResult cat st i = some e ∧
    (∀ cat2 : CatalogState, getMappingResult cat2 st i = getMappingResult cat st i) ∧
    (∀ (cat3 : CatalogState) (controlId : String) (res : MappingAnalysisResult),
      ∀ m ∈ (buildMappingResult cat3 controlId res).nistMappings,
        m.nistTitle ≠ "" ∧ m.nistDescription ≠ "") := by
  have hread : ∀ cat4 : CatalogState, getMappingResult cat4 st i = some e := by
    intro cat4
    simp only [getMappingResult, hget]
    have hmap : e.nistMappings.map (enrichMapping cat4) = e.nistMappings :=
      map_self_of_eq e.nistMappings (enrichMapping cat4)
        (fun m hm => enrichMapping_of_full cat4 m (hfull m hm).1 (hfull m hm).2)
    rw [hmap]
  refine ⟨hread cat, fun cat2 => by rw [hread cat2, hread cat], ?_⟩
  intro cat3 controlId res m hm
  rcases List.mem_map.mp hm with ⟨cm, hcm, rfl⟩
  exact ⟨(getNISTControlMetadata_nonempty cat3 cm.nistControlId).1,
    (getNISTControlMetadata_nonempty cat3 cm.nistControlId).2⟩

/-- C4 amended witness: the entry written under the old catalog reads
back verbatim under the new catalog. -/
theorem read_write_time_denormalization_witness :
    getMappingResult c4CatNew c4Store "ISM-1" =
      some (buildMappingResult c4CatOld "ISM-1" c4Analysis) :=
  (read_write_time_denormalization c4CatNew c4Store "ISM-1"
    (buildMappingResult c4CatOld "ISM-1" c4Analysis) rfl (by decide)).1


end Ism
